import Mathlib

/-!
Package ntime: a relative time as an int64 nanosecond count.

A shallow embedding of `ntime.go` (package `ntime`): the type `Time` (Go
`type Time int64`), the package variable `epoch`, and the functions `Epoch`,
`Now`, `ToTime`, `Add`, `Sub`, `After`, `Before`, `BeforeOrEqual`,
`AfterOrEqual`.

Go's `int64` is embedded as an integer together with a proof that it lies in
`[-2^63, 2^63 - 1]`; `+` and `-` on `int64` wrap around (two's complement),
which is `wrap64` here.
-/

namespace Ntime

/-! ## Machine integers -/

/-- Smallest `int64`, `math.MinInt64`. -/
def minInt64 : Int := -9223372036854775808

/-- Largest `int64`, `math.MaxInt64`. -/
def maxInt64 : Int := 9223372036854775807

/-- Membership in the range of a signed 64-bit integer. -/
def IsInt64 (x : Int) : Prop := minInt64 ≤ x ∧ x ≤ maxInt64

instance (x : Int) : Decidable (IsInt64 x) :=
  inferInstanceAs (Decidable (minInt64 ≤ x ∧ x ≤ maxInt64))

/-- Two's-complement reduction of an exact integer to `int64`: the value in
`[-2^63, 2^63)` congruent to `x` modulo `2^64`. This is what Go's `+` and `-`
on `int64` compute from the exact sum or difference. -/
def wrap64 (x : Int) : Int :=
  (x + 9223372036854775808) % 18446744073709551616 - 9223372036854775808

/-- Go's `+` on two `int64` values. -/
def add64 (x y : Int) : Int := wrap64 (x + y)

/-- Go's `-` on two `int64` values. -/
def sub64 (x y : Int) : Int := wrap64 (x - y)

/-! ## The types `time.Duration` and `ntime.Time` -/

/-- Go's `time.Duration`, declared in the standard library as
`type Duration int64`: a nanosecond count. -/
@[ext]
structure Duration where
  ns : Int
  isInt64 : IsInt64 ns

/-- The type `Time` of `ntime.go`, `type Time int64`: a nanosecond count since
the epoch. -/
@[ext]
structure Time where
  ns : Int
  isInt64 : IsInt64 ns

instance : DecidableEq Duration := fun a b =>
  if h : a.ns = b.ns then isTrue (Duration.ext h) else isFalse (fun e => h (e ▸ rfl))

instance : DecidableEq Time := fun a b =>
  if h : a.ns = b.ns then isTrue (Time.ext h) else isFalse (fun e => h (e ▸ rfl))

/-- The conversion `time.Duration(x)` of an `int64`. -/
def Duration.ofInt64 (x : Int) (h : IsInt64 x) : Duration := ⟨x, h⟩

/-- The conversion `Time(x)` of an `int64`. -/
def Time.ofInt64 (x : Int) (h : IsInt64 x) : Time := ⟨x, h⟩

/-- Standard library `func (d Duration) Nanoseconds() int64 { return int64(d) }`:
the nanosecond count as an `int64`. -/
def Duration.Nanoseconds (d : Duration) : Int := d.ns

/-- `time.Second`, `1e9` nanoseconds. -/
def Second : Duration := ⟨1000000000, by decide⟩

/-- `time.Millisecond`, `1e6` nanoseconds. -/
def Millisecond : Duration := ⟨1000000, by decide⟩

/-- `time.Microsecond`, `1e3` nanoseconds. -/
def Microsecond : Duration := ⟨1000, by decide⟩

/-- `time.Nanosecond`, one nanosecond. -/
def Nanosecond : Duration := ⟨1, by decide⟩

/-- Go's `+` on two `time.Duration` values, an `int64` addition. -/
def Duration.plus (d1 d2 : Duration) : Duration :=
  ⟨add64 d1.ns d2.ns, by
    simp only [IsInt64, minInt64, maxInt64, add64, wrap64]; omega⟩

/-! ## The value operations of `ntime.go` -/

/-- The method `func (t Time) Add(d time.Duration) Time`:
`return t + Time(d.Nanoseconds())`, an `int64` addition. -/
def Time.Add (t : Time) (d : Duration) : Time :=
  ⟨add64 t.ns (Time.ofInt64 d.Nanoseconds d.isInt64).ns, by
    simp only [IsInt64, minInt64, maxInt64, add64, wrap64]; omega⟩

/-- The method `func (t Time) Sub(u Time) time.Duration`:
`return time.Duration(t - u)`, an `int64` subtraction. -/
def Time.Sub (t u : Time) : Duration :=
  Duration.ofInt64 (sub64 t.ns u.ns) (by
    simp only [IsInt64, minInt64, maxInt64, sub64, wrap64]; omega)

/-- The method `func (t Time) After(u Time) bool`: `return t > u`. -/
def Time.After (t u : Time) : Bool := decide (t.ns > u.ns)

/-- The method `func (t Time) Before(u Time) bool`: `return t < u`. -/
def Time.Before (t u : Time) : Bool := decide (t.ns < u.ns)

/-- The method `func (t Time) BeforeOrEqual(u Time) bool`: `return t <= u`. -/
def Time.BeforeOrEqual (t u : Time) : Bool := decide (t.ns ≤ u.ns)

/-- The method `func (t Time) AfterOrEqual(u Time) bool`: `return t >= u`. -/
def Time.AfterOrEqual (t u : Time) : Bool := decide (t.ns ≥ u.ns)

/-! ## The host clock and the package state -/

/-- Modelled from the spec: the instant supplied by the host (Go's `time.Time`,
standard library, outside this repository). The standard library documents
that a `time.Time` read by `time.Now()` carries two readings: a monotonic
clock reading, which system clock changes do not move, and a wall clock
reading. `nanos` is the monotonic reading and `wall` the wall clock reading,
each an exact integer count of nanoseconds. -/
@[ext]
structure Instant where
  nanos : Int
  wall : Int
deriving DecidableEq

/-- Modelled from the spec: the difference of two host instants as a duration
(Go's `time.Time.Sub`, standard library, outside this repository). The
standard library documents that when both instants carry a monotonic reading
the difference is taken on the monotonic readings alone, ignoring the wall
clock readings. It is the exact difference `t - u` when that fits in a
`Duration`; otherwise the maximum (or minimum) duration is returned. -/
def Instant.Sub (t u : Instant) : Duration :=
  if h1 : t.nanos - u.nanos > maxInt64 then ⟨maxInt64, by decide⟩
  else if h2 : t.nanos - u.nanos < minInt64 then ⟨minInt64, by decide⟩
  else ⟨t.nanos - u.nanos, ⟨by omega, by omega⟩⟩

/-- Modelled from the spec: a host instant advanced by a duration (Go's
`time.Time.Add`, standard library, outside this repository): the duration is
added to the wall clock reading and to the monotonic reading alike. -/
def Instant.Add (t : Instant) (d : Duration) : Instant := ⟨t.nanos + d.ns, t.wall + d.ns⟩

/-- Modelled from the spec: `time.Since(t)`, which the standard library defines
as `time.Now().Sub(t)`; `clock` is the reading `time.Now()` returns at the
call. -/
def Since (clock : Instant) (t : Instant) : Duration := clock.Sub t

/-- The package-level state of `ntime.go`: the one variable `epoch`. -/
@[ext]
structure Pkg where
  epoch : Instant
deriving DecidableEq

/-- Package initialisation, `var epoch = time.Now()`; `clock` is the reading of
`time.Now()` at that moment. -/
def Pkg.init (clock : Instant) : Pkg := ⟨clock⟩

/-- The function `func Epoch() time.Time`: `return epoch`. -/
def Epoch (p : Pkg) : Instant := p.epoch

/-- The function `func Now() Time`:
`return Time(time.Since(epoch).Nanoseconds())`; `clock` is the reading of the
host clock at the call. -/
def Now (p : Pkg) (clock : Instant) : Time :=
  Time.ofInt64 (Since clock p.epoch).Nanoseconds (Since clock p.epoch).isInt64

/-- The method `func (t Time) ToTime() time.Time`:
`return epoch.Add(time.Duration(t))`. -/
def Time.ToTime (p : Pkg) (t : Time) : Instant :=
  p.epoch.Add (Duration.ofInt64 t.ns t.isInt64)

/-- A call of one of the exported operations of the package, with its
arguments (the receiver first). -/
inductive Call where
  | Epoch
  | Now
  | ToTime (t : Time)
  | Add (t : Time) (d : Duration)
  | Sub (t u : Time)
  | After (t u : Time)
  | Before (t u : Time)
  | BeforeOrEqual (t u : Time)
  | AfterOrEqual (t u : Time)

/-- What a call returns. -/
inductive Value where
  | instant (i : Instant)
  | time (t : Time)
  | duration (d : Duration)
  | bool (b : Bool)
deriving DecidableEq

/-- One call executed on the package state at host clock reading `clock`: the
value returned and the package state afterwards. No function body of
`ntime.go` assigns to `epoch`, so every call hands the state on as it found
it. -/
def step (p : Pkg) (clock : Instant) : Call → Value × Pkg
  | .Epoch => (.instant (Epoch p), p)
  | .Now => (.time (Now p clock), p)
  | .ToTime t => (.instant (t.ToTime p), p)
  | .Add t d => (.time (t.Add d), p)
  | .Sub t u => (.duration (t.Sub u), p)
  | .After t u => (.bool (t.After u), p)
  | .Before t u => (.bool (t.Before u), p)
  | .BeforeOrEqual t u => (.bool (t.BeforeOrEqual u), p)
  | .AfterOrEqual t u => (.bool (t.AfterOrEqual u), p)

/-- A sequence of calls, each at its own clock reading, executed in order: the
values returned and the final package state. -/
def run (p : Pkg) : List (Instant × Call) → List Value × Pkg
  | [] => ([], p)
  | (clock, c) :: rest =>
    let r := step p clock c
    let rs := run r.2 rest
    (r.1 :: rs.1, rs.2)

/-! ## Shared lemmas -/

theorem wrap64_isInt64 (x : Int) : IsInt64 (wrap64 x) := by
  simp only [IsInt64, minInt64, maxInt64, wrap64]
  omega

theorem wrap64_of_isInt64 {x : Int} (h : IsInt64 x) : wrap64 x = x := by
  simp only [IsInt64, minInt64, maxInt64] at h
  unfold wrap64
  omega

theorem Time.Add_ns (t : Time) (d : Duration) : (t.Add d).ns = wrap64 (t.ns + d.ns) := rfl

theorem Time.Sub_ns (t u : Time) : (t.Sub u).ns = wrap64 (t.ns - u.ns) := rfl

theorem Time.After_iff (t u : Time) : t.After u = true ↔ u.ns < t.ns := by
  simp [Time.After]

theorem Time.Before_iff (t u : Time) : t.Before u = true ↔ t.ns < u.ns := by
  simp [Time.Before]

/-- Within the 64-bit range of the epoch, `Now` is the exact difference between
the clock reading and the epoch. -/
theorem Now_ns_of_inRange (p : Pkg) (c : Instant) (h : IsInt64 (c.nanos - p.epoch.nanos)) :
    (Now p c).ns = c.nanos - p.epoch.nanos := by
  have h0 := h
  simp only [IsInt64, minInt64, maxInt64] at h0
  have e : (Now p c).ns = (c.Sub p.epoch).ns := rfl
  rw [e]
  unfold Instant.Sub
  simp only [minInt64, maxInt64]
  split
  · omega
  · split
    · omega
    · rfl

theorem step_state (p : Pkg) (clock : Instant) (c : Call) : (step p clock c).2 = p := by
  cases c <;> rfl

theorem run_state (p : Pkg) (cs : List (Instant × Call)) : (run p cs).2 = p := by
  induction cs generalizing p with
  | nil => rfl
  | cons x rest ih =>
    obtain ⟨clock, c⟩ := x
    simp only [run]
    rw [ih, step_state]

/-! ## Round trip of `Add` then `Sub` -/

/-- Claim C1: for every Time `a` and every Duration `d` whose exact sum
`a + d` fits in a signed 64-bit integer, `a.Add(d).Sub(a) == d`. -/
theorem add_sub_roundtrip (a : Time) (d : Duration) (h : IsInt64 (a.ns + d.ns)) :
    (a.Add d).Sub a = d := by
  apply Duration.ext
  rw [Time.Sub_ns, Time.Add_ns, wrap64_of_isInt64 h]
  have hd := d.isInt64
  simp only [IsInt64, minInt64, maxInt64] at hd
  unfold wrap64
  omega

/-- The round trip at `a = 5`, `d = time.Second`. -/
theorem add_sub_roundtrip_witness :
    IsInt64 ((Time.ofInt64 5 (by decide)).ns + Second.ns) ∧
      ((Time.ofInt64 5 (by decide)).Add Second).Sub (Time.ofInt64 5 (by decide)) = Second :=
  ⟨by decide, add_sub_roundtrip (Time.ofInt64 5 (by decide)) Second (by decide)⟩

/-! ## Sign of `Sub` against `After` -/

/-- Claim C2, refuted as stated: at `a = MaxInt64` and `b = -1` the receiver
is the later time (`a.After(b)` is true) but the exact difference `2^63` does
not fit in an `int64` and `a.Sub(b)` is `MinInt64`, which is not positive. -/
theorem sub_pos_iff_after_counterexample :
    (Time.ofInt64 maxInt64 (by decide)).After (Time.ofInt64 (-1) (by decide)) = true ∧
      ((Time.ofInt64 maxInt64 (by decide)).Sub (Time.ofInt64 (-1) (by decide))).ns = minInt64 ∧
      ¬ (((Time.ofInt64 maxInt64 (by decide)).Sub (Time.ofInt64 (-1) (by decide))).ns > 0
          ↔ (Time.ofInt64 maxInt64 (by decide)).After (Time.ofInt64 (-1) (by decide)) = true) := by
  decide

/-- Claim C2, amended: for all Time values `a` and `b` whose exact difference
`a - b` fits in a signed 64-bit integer, `a.Sub(b) > 0` if and only if
`a.After(b)` is true. -/
theorem sub_pos_iff_after (a b : Time) (h : IsInt64 (a.ns - b.ns)) :
    (a.Sub b).ns > 0 ↔ a.After b = true := by
  rw [Time.Sub_ns, wrap64_of_isInt64 h, Time.After_iff]
  omega

/-- The amended C2 at `a = 7`, `b = 3`. -/
theorem sub_pos_iff_after_witness :
    IsInt64 ((Time.ofInt64 7 (by decide)).ns - (Time.ofInt64 3 (by decide)).ns) ∧
      (((Time.ofInt64 7 (by decide)).Sub (Time.ofInt64 3 (by decide))).ns > 0
        ↔ (Time.ofInt64 7 (by decide)).After (Time.ofInt64 3 (by decide)) = true) :=
  ⟨by decide, sub_pos_iff_after (Time.ofInt64 7 (by decide)) (Time.ofInt64 3 (by decide))
    (by decide)⟩

/-! ## The ordering -/

/-- Claim C3: for any Time values `a` and `b`, exactly one of `a.Before(b)`,
`a == b`, `a.After(b)` holds, and `a.Before(b)` and `b.Before(a)` are never
both true. -/
theorem before_eq_after_trichotomy (a b : Time) :
    ((a.Before b = true ∧ a ≠ b ∧ a.After b = false) ∨
      (a.Before b = false ∧ a = b ∧ a.After b = false) ∨
      (a.Before b = false ∧ a ≠ b ∧ a.After b = true)) ∧
    ¬ (a.Before b = true ∧ b.Before a = true) := by
  have hne : a ≠ b ↔ a.ns ≠ b.ns := by
    constructor
    · intro h e
      exact h (Time.ext e)
    · intro h e
      exact h (e ▸ rfl)
  have heq : a = b ↔ a.ns = b.ns := by
    constructor
    · intro e
      exact e ▸ rfl
    · intro e
      exact Time.ext e
  simp only [hne, heq, Time.Before, Time.After, decide_eq_true_eq, decide_eq_false_iff_not]
  omega

/-- Claim C6: the four comparison methods agree with the signed-integer
ordering of the nanosecond counts: `t.After(u)` iff `t > u`, `t.Before(u)` iff
`t < u`, `t.BeforeOrEqual(u)` iff `t <= u`, `t.AfterOrEqual(u)` iff `t >= u`;
and `BeforeOrEqual` is the negation of `After`, `AfterOrEqual` the negation of
`Before`. -/
theorem comparisons_agree_with_order (t u : Time) :
    (t.After u = true ↔ t.ns > u.ns) ∧
    (t.Before u = true ↔ t.ns < u.ns) ∧
    (t.BeforeOrEqual u = true ↔ t.ns ≤ u.ns) ∧
    (t.AfterOrEqual u = true ↔ t.ns ≥ u.ns) ∧
    t.BeforeOrEqual u = !(t.After u) ∧
    t.AfterOrEqual u = !(t.Before u) := by
  refine ⟨by simp [Time.After], by simp [Time.Before], by simp [Time.BeforeOrEqual],
    by simp [Time.AfterOrEqual], ?_, ?_⟩
  · by_cases h : t.ns ≤ u.ns
    · have h2 : ¬ (t.ns > u.ns) := by omega
      simp [Time.BeforeOrEqual, Time.After, h, h2]
    · have h2 : t.ns > u.ns := by omega
      simp [Time.BeforeOrEqual, Time.After, h, h2]
  · by_cases h : t.ns ≥ u.ns
    · have h2 : ¬ (t.ns < u.ns) := by omega
      simp [Time.AfterOrEqual, Time.Before, h, h2]
    · have h2 : t.ns < u.ns := by omega
      simp [Time.AfterOrEqual, Time.Before, h, h2]

/-- Claim C7: when `now` is strictly earlier than `later`, `later.After(now)`
is true, `now.After(later)` is false, `now.Before(later)` is true and
`later.Before(now)` is false; and for all `a` and `b`, `a.After(b)` iff
`b.Before(a)`. -/
theorem after_before_dual (now later a b : Time) :
    (now.ns < later.ns →
      later.After now = true ∧ now.After later = false ∧
        now.Before later = true ∧ later.Before now = false) ∧
    (a.After b = true ↔ b.Before a = true) := by
  refine ⟨fun h => ?_, ?_⟩
  · have h2 : ¬ (later.ns < now.ns) := by omega
    simp [Time.After, Time.Before, h, h2]
  · simp [Time.After, Time.Before]

/-- Claim C7 at `now = 1`, `later = 2`. -/
theorem after_before_dual_witness :
    (Time.ofInt64 1 (by decide)).ns < (Time.ofInt64 2 (by decide)).ns ∧
      ((Time.ofInt64 2 (by decide)).After (Time.ofInt64 1 (by decide)) = true ∧
        (Time.ofInt64 1 (by decide)).After (Time.ofInt64 2 (by decide)) = false ∧
        (Time.ofInt64 1 (by decide)).Before (Time.ofInt64 2 (by decide)) = true ∧
        (Time.ofInt64 2 (by decide)).Before (Time.ofInt64 1 (by decide)) = false) :=
  ⟨by decide,
    (after_before_dual (Time.ofInt64 1 (by decide)) (Time.ofInt64 2 (by decide))
      (Time.ofInt64 1 (by decide)) (Time.ofInt64 2 (by decide))).1 (by decide)⟩

/-! ## What `Add` and `Sub` return -/

/-- Claim C4: for every Time `t` and Duration `d`, `t.Add(d)` is
`t + Time(d.Nanoseconds())`, the `int64` sum of `t` and `d`: it is congruent
to the exact sum modulo `2^64`, and it is the exact integer sum whenever that
fits in 64 bits. `Add` is a function of the values `t` and `d` (a value
receiver), so the receiver is not changed. -/
theorem add_is_int64_sum (t : Time) (d : Duration) :
    (t.Add d).ns = add64 t.ns (Time.ofInt64 d.Nanoseconds d.isInt64).ns ∧
    (t.Add d).ns = wrap64 (t.ns + d.Nanoseconds) ∧
    ((t.Add d).ns - (t.ns + d.Nanoseconds)) % 18446744073709551616 = 0 ∧
    (IsInt64 (t.ns + d.Nanoseconds) → (t.Add d).ns = t.ns + d.Nanoseconds) := by
  refine ⟨rfl, rfl, ?_, fun h => ?_⟩
  · rw [Time.Add_ns]
    simp only [Duration.Nanoseconds, wrap64]
    omega
  · rw [Time.Add_ns]
    exact wrap64_of_isInt64 h

/-- Claim C4 at `t = 5`, `d = time.Second`, as in `TestTime_Add`. -/
theorem add_is_int64_sum_witness :
    IsInt64 ((Time.ofInt64 5 (by decide)).ns + Second.Nanoseconds) ∧
      ((Time.ofInt64 5 (by decide)).Add Second).ns
        = (Time.ofInt64 5 (by decide)).ns + Second.Nanoseconds :=
  ⟨by decide, (add_is_int64_sum (Time.ofInt64 5 (by decide)) Second).2.2.2 (by decide)⟩

/-- Claim C5, refuted as stated: at `t = MinInt64` and `u = 1` the receiver is
the earlier time (`t.Before(u)` is true) but the exact difference `-2^63 - 1`
does not fit in an `int64` and `t.Sub(u)` is `MaxInt64`, which is not
negative. -/
theorem sub_is_int64_difference_counterexample :
    (Time.ofInt64 minInt64 (by decide)).Before (Time.ofInt64 1 (by decide)) = true ∧
      ((Time.ofInt64 minInt64 (by decide)).Sub (Time.ofInt64 1 (by decide))).ns = maxInt64 ∧
      ¬ ((Time.ofInt64 minInt64 (by decide)).Sub (Time.ofInt64 1 (by decide))).ns < 0 := by
  decide

/-- Claim C5, amended: for every Time `t` and `u`, `t.Sub(u)` is the Duration
whose nanosecond count is the `int64` difference `t - u`: congruent to the
exact difference modulo `2^64`, and the exact integer difference whenever that
fits in a signed 64-bit integer, in which case it is negative when `t` is
earlier than `u`; it is zero when `t == u`. -/
theorem sub_is_int64_difference (t u : Time) :
    (t.Sub u).ns = sub64 t.ns u.ns ∧
    ((t.Sub u).ns - (t.ns - u.ns)) % 18446744073709551616 = 0 ∧
    (IsInt64 (t.ns - u.ns) →
      (t.Sub u).ns = t.ns - u.ns ∧ (t.Before u = true → (t.Sub u).ns < 0)) ∧
    (t = u → (t.Sub u).ns = 0) := by
  refine ⟨rfl, ?_, fun h => ?_, fun e => ?_⟩
  · rw [Time.Sub_ns]
    unfold wrap64
    omega
  · rw [Time.Sub_ns, wrap64_of_isInt64 h, Time.Before_iff]
    exact ⟨rfl, fun hlt => by omega⟩
  · rw [Time.Sub_ns, e]
    unfold wrap64
    omega

/-- The amended C5 at `t = 3`, `u = 7`: the difference is `-4`. -/
theorem sub_is_int64_difference_witness :
    IsInt64 ((Time.ofInt64 3 (by decide)).ns - (Time.ofInt64 7 (by decide)).ns) ∧
      (Time.ofInt64 3 (by decide)).Before (Time.ofInt64 7 (by decide)) = true ∧
      ((Time.ofInt64 3 (by decide)).Sub (Time.ofInt64 7 (by decide))).ns < 0 :=
  ⟨by decide, by decide,
    ((sub_is_int64_difference (Time.ofInt64 3 (by decide)) (Time.ofInt64 7 (by decide))).2.2.1
      (by decide)).2 (by decide)⟩

/-! ## `Now` against the host clock -/

/-- Claim C8: `Now` is non-decreasing in the clock reading: for every epoch and
every two clock readings `c1 <= c2`, each within the 64-bit nanosecond range
of the epoch, `Now(c1) <= Now(c2)` (equality allowed), which is what
`AfterOrEqual` reports. -/
theorem now_nondecreasing (p : Pkg) (c1 c2 : Instant)
    (h1 : IsInt64 (c1.nanos - p.epoch.nanos)) (h2 : IsInt64 (c2.nanos - p.epoch.nanos))
    (h : c1.nanos ≤ c2.nanos) :
    (Now p c1).ns ≤ (Now p c2).ns ∧ (Now p c2).AfterOrEqual (Now p c1) = true := by
  have e1 := Now_ns_of_inRange p c1 h1
  have e2 := Now_ns_of_inRange p c2 h2
  have hle : (Now p c1).ns ≤ (Now p c2).ns := by omega
  exact ⟨hle, by simp [Time.AfterOrEqual, hle]⟩

/-- Claim C8 at epoch `1000` and readings `1500` and `1501`. -/
theorem now_nondecreasing_witness :
    (IsInt64 ((Instant.mk 1500 1500).nanos - (Pkg.init ⟨1000, 1000⟩).epoch.nanos) ∧
        IsInt64 ((Instant.mk 1501 1501).nanos - (Pkg.init ⟨1000, 1000⟩).epoch.nanos) ∧
        (Instant.mk 1500 1500).nanos ≤ (Instant.mk 1501 1501).nanos) ∧
      ((Now (Pkg.init ⟨1000, 1000⟩) ⟨1500, 1500⟩).ns ≤ (Now (Pkg.init ⟨1000, 1000⟩) ⟨1501, 1501⟩).ns ∧
        (Now (Pkg.init ⟨1000, 1000⟩) ⟨1501, 1501⟩).AfterOrEqual (Now (Pkg.init ⟨1000, 1000⟩) ⟨1500, 1500⟩) = true) :=
  ⟨by decide,
    now_nondecreasing (Pkg.init ⟨1000, 1000⟩) ⟨1500, 1500⟩ ⟨1501, 1501⟩ (by decide) (by decide) (by decide)⟩

/-- Claim C9, refuted as stated: with epoch `0` and the readings
`c0 = -2^63` and `c1 = 2^63 - 1`, each within the 64-bit range of the epoch and
`c0 <= c1`, the elapsed time `c1 - c0` is `2^64 - 1` nanoseconds, yet
`Now(c1).Sub(Now(c0))` is `-1`: not the elapsed time and not positive. -/
theorem now_sub_elapsed_counterexample :
    IsInt64 ((Instant.mk minInt64 minInt64).nanos - (Pkg.init ⟨0, 0⟩).epoch.nanos) ∧
      IsInt64 ((Instant.mk maxInt64 maxInt64).nanos - (Pkg.init ⟨0, 0⟩).epoch.nanos) ∧
      (Instant.mk maxInt64 maxInt64).nanos - (Instant.mk minInt64 minInt64).nanos = 18446744073709551615 ∧
      ((Now (Pkg.init ⟨0, 0⟩) ⟨maxInt64, maxInt64⟩).Sub (Now (Pkg.init ⟨0, 0⟩) ⟨minInt64, minInt64⟩)).ns = -1 ∧
      ((Now (Pkg.init ⟨0, 0⟩) ⟨maxInt64, maxInt64⟩).Sub (Now (Pkg.init ⟨0, 0⟩) ⟨minInt64, minInt64⟩)).ns
        ≠ (Instant.mk maxInt64 maxInt64).nanos - (Instant.mk minInt64 minInt64).nanos := by
  decide

/-- Claim C9, amended: for every epoch and every two clock readings `c0` and
`c1`, each within the 64-bit range of the epoch, `Now(c1).Sub(Now(c0))` is the
`int64` value of `c1 - c0`, whatever the epoch; it equals the elapsed time
`c1 - c0` whenever that fits in a signed 64-bit integer, as it does when
neither reading is earlier than the epoch and `c0 <= c1`, and then it is not
negative, and positive when `c0 < c1`. -/
theorem now_sub_elapsed (p : Pkg) (c0 c1 : Instant)
    (h0 : IsInt64 (c0.nanos - p.epoch.nanos)) (h1 : IsInt64 (c1.nanos - p.epoch.nanos)) :
    ((Now p c1).Sub (Now p c0)).ns = wrap64 (c1.nanos - c0.nanos) ∧
    (IsInt64 (c1.nanos - c0.nanos) →
      ((Now p c1).Sub (Now p c0)).ns = c1.nanos - c0.nanos) ∧
    (p.epoch.nanos ≤ c0.nanos → c0.nanos ≤ c1.nanos →
      ((Now p c1).Sub (Now p c0)).ns = c1.nanos - c0.nanos ∧
        0 ≤ ((Now p c1).Sub (Now p c0)).ns ∧
        (c0.nanos < c1.nanos → 0 < ((Now p c1).Sub (Now p c0)).ns)) := by
  have e0 := Now_ns_of_inRange p c0 h0
  have e1 := Now_ns_of_inRange p c1 h1
  have key : ((Now p c1).Sub (Now p c0)).ns = wrap64 (c1.nanos - c0.nanos) := by
    rw [Time.Sub_ns, e0, e1]
    congr 1
    omega
  refine ⟨key, fun h => ?_, fun ha hb => ?_⟩
  · rw [key, wrap64_of_isInt64 h]
  · have hfit : IsInt64 (c1.nanos - c0.nanos) := by
      simp only [IsInt64, minInt64, maxInt64] at h0 h1 ⊢
      omega
    rw [key, wrap64_of_isInt64 hfit]
    exact ⟨rfl, by omega, fun hlt => by omega⟩

/-- The amended C9 for a wait of 100 milliseconds, as in `Example`: epoch
`1000`, readings `5000` and `100005000`; the age is more than 50 milliseconds
and not more than a second. -/
theorem now_sub_elapsed_witness :
    (IsInt64 ((Instant.mk 5000 5000).nanos - (Pkg.init ⟨1000, 1000⟩).epoch.nanos) ∧
        IsInt64 ((Instant.mk 100005000 100005000).nanos - (Pkg.init ⟨1000, 1000⟩).epoch.nanos) ∧
        IsInt64 ((Instant.mk 100005000 100005000).nanos - (Instant.mk 5000 5000).nanos)) ∧
      ((Now (Pkg.init ⟨1000, 1000⟩) ⟨100005000, 100005000⟩).Sub (Now (Pkg.init ⟨1000, 1000⟩) ⟨5000, 5000⟩)).ns
        = (Instant.mk 100005000 100005000).nanos - (Instant.mk 5000 5000).nanos ∧
      ((Now (Pkg.init ⟨1000, 1000⟩) ⟨100005000, 100005000⟩).Sub (Now (Pkg.init ⟨1000, 1000⟩) ⟨5000, 5000⟩)).ns
        > 50 * Millisecond.ns ∧
      ¬ ((Now (Pkg.init ⟨1000, 1000⟩) ⟨100005000, 100005000⟩).Sub (Now (Pkg.init ⟨1000, 1000⟩) ⟨5000, 5000⟩)).ns
        > Second.ns :=
  ⟨by decide,
    (now_sub_elapsed (Pkg.init ⟨1000, 1000⟩) ⟨5000, 5000⟩ ⟨100005000, 100005000⟩ (by decide) (by decide)).2.1
      (by decide),
    by decide, by decide⟩

/-! ## The epoch -/

/-- Claim C10: the epoch is initialise-once. Whatever sequence of calls of
`Epoch`, `Now`, `ToTime`, `Add`, `Sub`, `After`, `Before`, `BeforeOrEqual`,
`AfterOrEqual` is executed, at whatever clock readings, the stored epoch is
afterwards what it was; and `Epoch()` called twice, with any calls in between,
returns the identical instant, which is the instant captured at
initialisation. -/
theorem epoch_write_once (p : Pkg) (cs : List (Instant × Call)) (k1 k2 : Instant) :
    (∀ clock c, (step p clock c).2.epoch = p.epoch) ∧
    (run p cs).2.epoch = p.epoch ∧
    (step (run (step p k1 Call.Epoch).2 cs).2 k2 Call.Epoch).1 = (step p k1 Call.Epoch).1 ∧
    (step p k1 Call.Epoch).1 = Value.instant p.epoch ∧
    Epoch (run (Pkg.init k1) cs).2 = k1 := by
  refine ⟨fun clock c => by rw [step_state], by rw [run_state], ?_, rfl, ?_⟩
  · rw [step_state, run_state]
    rfl
  · rw [run_state]
    rfl

/-! ## `ToTime` -/

/-- Claim C11, refuted as stated. The epoch is read at monotonic reading
`1000` and wall clock reading `1700000000000000000`; the system clock is then
set back one hour, and the clock is read again at monotonic reading `4000`,
wall clock reading `1699996400000003000`. `Now` at that reading is `3000`, and
`ToTime` of it is the epoch advanced by `3000` nanoseconds, whose wall clock
reading `1700000000000003000` is an hour ahead of the reading `c`: `ToTime`
does not return the instant `c`. -/
theorem toTime_now_counterexample :
    IsInt64 ((Instant.mk 4000 1699996400000003000).nanos
        - (Pkg.init ⟨1000, 1700000000000000000⟩).epoch.nanos) ∧
      (Now (Pkg.init ⟨1000, 1700000000000000000⟩) ⟨4000, 1699996400000003000⟩).ns = 3000 ∧
      (Now (Pkg.init ⟨1000, 1700000000000000000⟩) ⟨4000, 1699996400000003000⟩).ToTime
          (Pkg.init ⟨1000, 1700000000000000000⟩) = ⟨4000, 1700000000000003000⟩ ∧
      (Now (Pkg.init ⟨1000, 1700000000000000000⟩) ⟨4000, 1699996400000003000⟩).ToTime
          (Pkg.init ⟨1000, 1700000000000000000⟩) ≠ ⟨4000, 1699996400000003000⟩ := by
  decide

/-- Claim C11, amended: for every Time `t`, `t.ToTime()` is
`epoch.Add(Duration(t))`, the epoch instant advanced by `t` nanoseconds on
both of its readings; `Time(0).ToTime()` is the epoch itself; and for a value
obtained as `Now` at a clock reading `c` within the 64-bit range of the epoch,
`ToTime` returns the epoch advanced by the monotonic time elapsed since the
epoch: its monotonic reading is that of `c`, and it is the instant `c` exactly
when the wall clock has advanced since the epoch by as much as the monotonic
clock has. -/
theorem toTime_is_epoch_plus (p : Pkg) (t : Time) (c : Instant) :
    t.ToTime p = (Epoch p).Add (Duration.ofInt64 t.ns t.isInt64) ∧
    (t.ToTime p).nanos = (Epoch p).nanos + t.ns ∧
    (t.ToTime p).wall = (Epoch p).wall + t.ns ∧
    (Time.ofInt64 0 (by decide)).ToTime p = Epoch p ∧
    (IsInt64 (c.nanos - p.epoch.nanos) →
      ((Now p c).ToTime p).nanos = c.nanos ∧
        ((Now p c).ToTime p).wall = p.epoch.wall + (c.nanos - p.epoch.nanos) ∧
        ((Now p c).ToTime p = c ↔ c.wall - p.epoch.wall = c.nanos - p.epoch.nanos)) := by
  refine ⟨rfl, rfl, rfl, ?_, fun h => ?_⟩
  · apply Instant.ext
    · show p.epoch.nanos + 0 = p.epoch.nanos
      omega
    · show p.epoch.wall + 0 = p.epoch.wall
      omega
  · have e := Now_ns_of_inRange p c h
    have hn : ((Now p c).ToTime p).nanos = c.nanos := by
      show p.epoch.nanos + (Now p c).ns = c.nanos
      omega
    have hw : ((Now p c).ToTime p).wall = p.epoch.wall + (c.nanos - p.epoch.nanos) := by
      show p.epoch.wall + (Now p c).ns = p.epoch.wall + (c.nanos - p.epoch.nanos)
      omega
    refine ⟨hn, hw, ?_, ?_⟩
    · intro heq
      have hw2 : ((Now p c).ToTime p).wall = c.wall := by rw [heq]
      omega
    · intro hstep
      apply Instant.ext
      · exact hn
      · rw [hw]
        omega

/-- The amended C11 with no change of the system clock: the epoch is read at
monotonic reading `1000` and wall clock reading `1700000000000000000`, the
clock again at `4000` and `1700000000000003000`; `Now` is `3000` and `ToTime`
gives the reading back. -/
theorem toTime_is_epoch_plus_witness :
    (IsInt64 ((Instant.mk 4000 1700000000000003000).nanos
          - (Pkg.init ⟨1000, 1700000000000000000⟩).epoch.nanos) ∧
        (Instant.mk 4000 1700000000000003000).wall
            - (Pkg.init ⟨1000, 1700000000000000000⟩).epoch.wall
          = (Instant.mk 4000 1700000000000003000).nanos
            - (Pkg.init ⟨1000, 1700000000000000000⟩).epoch.nanos) ∧
      (Now (Pkg.init ⟨1000, 1700000000000000000⟩) ⟨4000, 1700000000000003000⟩).ToTime
          (Pkg.init ⟨1000, 1700000000000000000⟩) = ⟨4000, 1700000000000003000⟩ :=
  ⟨by decide,
    ((toTime_is_epoch_plus (Pkg.init ⟨1000, 1700000000000000000⟩) (Time.ofInt64 0 (by decide))
      ⟨4000, 1700000000000003000⟩).2.2.2.2 (by decide)).2.2.mpr (by decide)⟩

/-! ## The deadline scenario -/

/-- Claim C12, refuted as stated. With epoch `0`, `c1 = -2^63` and
`c2 = 2^63 - 808`, both within the 64-bit range of the epoch and `c1 <= c2`,
`Now(c1).Add(time.Second).Sub(Now(c2))` is one second plus 808 nanoseconds:
more than one second. With epoch `0`, `c1 = 2^63` and `c2 = 2^63 + 5`, both
beyond the range, it is exactly one second although 5 nanoseconds elapsed. -/
theorem deadline_counterexample :
    (IsInt64 ((Instant.mk (-9223372036854775808) (-9223372036854775808)).nanos - (Pkg.init ⟨0, 0⟩).epoch.nanos) ∧
      IsInt64 ((Instant.mk 9223372036854775000 9223372036854775000).nanos - (Pkg.init ⟨0, 0⟩).epoch.nanos) ∧
      (((Now (Pkg.init ⟨0, 0⟩) ⟨-9223372036854775808, -9223372036854775808⟩).Add Second).Sub
          (Now (Pkg.init ⟨0, 0⟩) ⟨9223372036854775000, 9223372036854775000⟩)).ns = 1000000808 ∧
      ¬ (((Now (Pkg.init ⟨0, 0⟩) ⟨-9223372036854775808, -9223372036854775808⟩).Add Second).Sub
          (Now (Pkg.init ⟨0, 0⟩) ⟨9223372036854775000, 9223372036854775000⟩)).ns ≤ Second.ns) ∧
    ((Instant.mk 9223372036854775808 9223372036854775808).nanos ≤ (Instant.mk 9223372036854775813 9223372036854775813).nanos ∧
      (((Now (Pkg.init ⟨0, 0⟩) ⟨9223372036854775808, 9223372036854775808⟩).Add Second).Sub
          (Now (Pkg.init ⟨0, 0⟩) ⟨9223372036854775813, 9223372036854775813⟩)).ns = Second.ns ∧
      (((Now (Pkg.init ⟨0, 0⟩) ⟨9223372036854775808, 9223372036854775808⟩).Add Second).Sub
          (Now (Pkg.init ⟨0, 0⟩) ⟨9223372036854775813, 9223372036854775813⟩)).ns
        ≠ Second.ns -
          ((Instant.mk 9223372036854775813 9223372036854775813).nanos - (Instant.mk 9223372036854775808 9223372036854775808).nanos)) := by
  decide

/-- Claim C12, amended: for every epoch and clock readings `c1 <= c2`, each
within the 64-bit range of the epoch and with one second minus the elapsed
time `c2 - c1` fitting in a signed 64-bit integer (as it does when `c1` is
not earlier than the epoch), `Now(c1).Add(1 second).Sub(Now(c2))` equals one
second minus `c2 - c1`: it is at most one second and differs from one second
by exactly the elapsed time. -/
theorem deadline (p : Pkg) (c1 c2 : Instant)
    (h1 : IsInt64 (c1.nanos - p.epoch.nanos)) (h2 : IsInt64 (c2.nanos - p.epoch.nanos))
    (h : c1.nanos ≤ c2.nanos) :
    (IsInt64 (Second.ns - (c2.nanos - c1.nanos)) →
      (((Now p c1).Add Second).Sub (Now p c2)).ns = Second.ns - (c2.nanos - c1.nanos) ∧
        (((Now p c1).Add Second).Sub (Now p c2)).ns ≤ Second.ns ∧
        Second.ns - (((Now p c1).Add Second).Sub (Now p c2)).ns = c2.nanos - c1.nanos) ∧
    (p.epoch.nanos ≤ c1.nanos → IsInt64 (Second.ns - (c2.nanos - c1.nanos))) := by
  have e1 := Now_ns_of_inRange p c1 h1
  have e2 := Now_ns_of_inRange p c2 h2
  have hs : Second.ns = 1000000000 := rfl
  refine ⟨fun hfit => ?_, fun ha => ?_⟩
  · have key : (((Now p c1).Add Second).Sub (Now p c2)).ns
        = Second.ns - (c2.nanos - c1.nanos) := by
      rw [Time.Sub_ns, Time.Add_ns, e1, e2]
      simp only [IsInt64, minInt64, maxInt64] at hfit h1 h2
      rw [hs] at hfit ⊢
      unfold wrap64
      omega
    rw [key]
    exact ⟨rfl, by omega, by omega⟩
  · simp only [IsInt64, minInt64, maxInt64] at h1 h2 ⊢
    rw [hs]
    omega

/-- The amended C12 at epoch `1000`, `c1 = 5000` and `c2 = 5250`: the
remaining time is one second minus 250 nanoseconds. -/
theorem deadline_witness :
    (IsInt64 ((Instant.mk 5000 5000).nanos - (Pkg.init ⟨1000, 1000⟩).epoch.nanos) ∧
        IsInt64 ((Instant.mk 5250 5250).nanos - (Pkg.init ⟨1000, 1000⟩).epoch.nanos) ∧
        (Instant.mk 5000 5000).nanos ≤ (Instant.mk 5250 5250).nanos ∧
        IsInt64 (Second.ns - ((Instant.mk 5250 5250).nanos - (Instant.mk 5000 5000).nanos))) ∧
      (((Now (Pkg.init ⟨1000, 1000⟩) ⟨5000, 5000⟩).Add Second).Sub (Now (Pkg.init ⟨1000, 1000⟩) ⟨5250, 5250⟩)).ns
        = 999999750 :=
  ⟨by decide,
    ((deadline (Pkg.init ⟨1000, 1000⟩) ⟨5000, 5000⟩ ⟨5250, 5250⟩ (by decide) (by decide) (by decide)).1
      (by decide)).1⟩

/-! ## Overflow -/

/-- Claim C13: `Add` and `Sub` are total on all 64-bit inputs and report no
error; when the exact result falls outside the signed 64-bit range they return
the two's-complement wrapped value, the exact result shifted by `2^64`, rather
than a saturated one. `Time(MaxInt64).Add(1ns) == Time(MinInt64)` and
`Time(MinInt64).Sub(Time(1)) == Duration(MaxInt64)`. -/
theorem add_sub_wrap_on_overflow (t u : Time) (d : Duration) :
    (IsInt64 (t.Add d).ns ∧ ((t.Add d).ns - (t.ns + d.ns)) % 18446744073709551616 = 0) ∧
    (IsInt64 (t.Sub u).ns ∧ ((t.Sub u).ns - (t.ns - u.ns)) % 18446744073709551616 = 0) ∧
    (t.ns + d.ns > maxInt64 → (t.Add d).ns = t.ns + d.ns - 18446744073709551616) ∧
    (t.ns + d.ns < minInt64 → (t.Add d).ns = t.ns + d.ns + 18446744073709551616) ∧
    (t.ns - u.ns > maxInt64 → (t.Sub u).ns = t.ns - u.ns - 18446744073709551616) ∧
    (t.ns - u.ns < minInt64 → (t.Sub u).ns = t.ns - u.ns + 18446744073709551616) ∧
    (Time.ofInt64 maxInt64 (by decide)).Add Nanosecond = Time.ofInt64 minInt64 (by decide) ∧
    (Time.ofInt64 minInt64 (by decide)).Sub (Time.ofInt64 1 (by decide))
      = Duration.ofInt64 maxInt64 (by decide) := by
  have ht := t.isInt64
  have hu := u.isInt64
  have hd := d.isInt64
  simp only [IsInt64, minInt64, maxInt64] at ht hu hd
  refine ⟨⟨(t.Add d).isInt64, ?_⟩, ⟨(t.Sub u).isInt64, ?_⟩, ?_, ?_, ?_, ?_, by decide, by decide⟩
  · rw [Time.Add_ns]
    unfold wrap64
    omega
  · rw [Time.Sub_ns]
    unfold wrap64
    omega
  · intro h
    rw [Time.Add_ns]
    simp only [maxInt64] at h
    unfold wrap64
    omega
  · intro h
    rw [Time.Add_ns]
    simp only [minInt64] at h
    unfold wrap64
    omega
  · intro h
    rw [Time.Sub_ns]
    simp only [maxInt64] at h
    unfold wrap64
    omega
  · intro h
    rw [Time.Sub_ns]
    simp only [minInt64] at h
    unfold wrap64
    omega

/-- Claim C13 at `t = MaxInt64 - 2`, `d = time.Microsecond`: the exact sum
`2^63 + 997` is out of range and `Add` returns it less `2^64`. -/
theorem add_sub_wrap_on_overflow_witness :
    (Time.ofInt64 9223372036854775805 (by decide)).ns + Microsecond.ns > maxInt64 ∧
      ((Time.ofInt64 9223372036854775805 (by decide)).Add Microsecond).ns
        = (Time.ofInt64 9223372036854775805 (by decide)).ns + Microsecond.ns
          - 18446744073709551616 :=
  ⟨by decide,
    (add_sub_wrap_on_overflow (Time.ofInt64 9223372036854775805 (by decide))
      (Time.ofInt64 0 (by decide)) Microsecond).2.2.1 (by decide)⟩

/-- Claim C14: `Now` does not clamp. For every epoch and every clock reading
`c` earlier than the epoch and within its 64-bit range, `Now` returns the
negative value `c - epoch`, not zero; and `Add` likewise returns a negative
Time whenever the exact sum is negative and in range. -/
theorem now_not_clamped (p : Pkg) (c : Instant) (t : Time) (d : Duration) :
    (IsInt64 (c.nanos - p.epoch.nanos) → c.nanos < p.epoch.nanos →
      (Now p c).ns = c.nanos - p.epoch.nanos ∧ (Now p c).ns < 0 ∧
        step p c Call.Now = (Value.time (Now p c), p)) ∧
    (IsInt64 (t.ns + d.ns) → t.ns + d.ns < 0 →
      (t.Add d).ns = t.ns + d.ns ∧ (t.Add d).ns < 0) := by
  refine ⟨fun h hlt => ?_, fun h hlt => ?_⟩
  · rw [Now_ns_of_inRange p c h]
    exact ⟨rfl, by omega, rfl⟩
  · rw [Time.Add_ns, wrap64_of_isInt64 h]
    exact ⟨rfl, hlt⟩

/-- Claim C14 at epoch `1000` and reading `400`: `Now` is `-600`. -/
theorem now_not_clamped_witness :
    (IsInt64 ((Instant.mk 400 400).nanos - (Pkg.init ⟨1000, 1000⟩).epoch.nanos) ∧
        (Instant.mk 400 400).nanos < (Pkg.init ⟨1000, 1000⟩).epoch.nanos) ∧
      (Now (Pkg.init ⟨1000, 1000⟩) ⟨400, 400⟩).ns = -600 :=
  ⟨by decide,
    ((now_not_clamped (Pkg.init ⟨1000, 1000⟩) ⟨400, 400⟩ (Time.ofInt64 0 (by decide)) Second).1
      (by decide) (by decide)).1⟩

/-! ## Algebra of `Add` and `Sub` without preconditions -/

/-- Claim C15: for every Time `a` and every Duration `d`, also where `a + d`
wraps around the signed 64-bit range, `a.Add(d).Sub(a) == d`. -/
theorem add_sub_roundtrip_total (a : Time) (d : Duration) : (a.Add d).Sub a = d := by
  apply Duration.ext
  rw [Time.Sub_ns, Time.Add_ns]
  have ha := a.isInt64
  have hd := d.isInt64
  simp only [IsInt64, minInt64, maxInt64] at ha hd
  unfold wrap64
  omega

/-- Claim C16: for all Time values `a` and `b`, with no overflow precondition,
`a.Add(b.Sub(a)) == b`. -/
theorem sub_add_recovers (a b : Time) : a.Add (b.Sub a) = b := by
  apply Time.ext
  rw [Time.Add_ns, Time.Sub_ns]
  have ha := a.isInt64
  have hb := b.isInt64
  simp only [IsInt64, minInt64, maxInt64] at ha hb
  unfold wrap64
  omega

/-- Claim C17: `Add` is an action of durations on times: `a.Add(0) == a`, and
`a.Add(d1).Add(d2) == a.Add(d1 + d2) == a.Add(d2).Add(d1)` for all Durations
`d1` and `d2`, where `d1 + d2` is the `int64` sum of the durations. -/
theorem add_action (a : Time) (d1 d2 : Duration) :
    a.Add (Duration.ofInt64 0 (by decide)) = a ∧
    (a.Add d1).Add d2 = a.Add (d1.plus d2) ∧
    a.Add (d1.plus d2) = (a.Add d2).Add d1 := by
  have ha := a.isInt64
  have h1 := d1.isInt64
  have h2 := d2.isInt64
  simp only [IsInt64, minInt64, maxInt64] at ha h1 h2
  have hp : (d1.plus d2).ns = wrap64 (d1.ns + d2.ns) := rfl
  have h0 : (Duration.ofInt64 0 (by decide)).ns = 0 := rfl
  refine ⟨?_, ?_, ?_⟩
  · apply Time.ext
    rw [Time.Add_ns, h0]
    unfold wrap64
    omega
  · apply Time.ext
    rw [Time.Add_ns, Time.Add_ns, Time.Add_ns, hp]
    unfold wrap64
    omega
  · apply Time.ext
    rw [Time.Add_ns, Time.Add_ns, Time.Add_ns, hp]
    unfold wrap64
    omega

/-! ## `Add` and the ordering -/

/-- Claim C18: for every Time `a` and Duration `d` with `a + d` inside the
signed 64-bit range, `a.Add(d).After(a)` iff `d > 0` and `a.Add(d).Before(a)`
iff `d < 0`; and for all `a <= b` with both `a + d` and `b + d` in range,
`a.Add(d).BeforeOrEqual(b.Add(d))`. -/
theorem add_respects_order (a b : Time) (d : Duration) :
    (IsInt64 (a.ns + d.ns) →
      ((a.Add d).After a = true ↔ d.ns > 0) ∧ ((a.Add d).Before a = true ↔ d.ns < 0)) ∧
    (a.ns ≤ b.ns → IsInt64 (a.ns + d.ns) → IsInt64 (b.ns + d.ns) →
      (a.Add d).BeforeOrEqual (b.Add d) = true) := by
  refine ⟨fun h => ?_, fun hab ha hb => ?_⟩
  · rw [Time.After_iff, Time.Before_iff, Time.Add_ns, wrap64_of_isInt64 h]
    constructor <;> constructor <;> intro hh <;> omega
  · have e : (a.Add d).ns ≤ (b.Add d).ns := by
      rw [Time.Add_ns, Time.Add_ns, wrap64_of_isInt64 ha, wrap64_of_isInt64 hb]
      omega
    simp [Time.BeforeOrEqual, e]

/-- Claim C18 at `a = 5`, `b = 9`, `d = time.Second`. -/
theorem add_respects_order_witness :
    (IsInt64 ((Time.ofInt64 5 (by decide)).ns + Second.ns) ∧
        IsInt64 ((Time.ofInt64 9 (by decide)).ns + Second.ns) ∧
        (Time.ofInt64 5 (by decide)).ns ≤ (Time.ofInt64 9 (by decide)).ns) ∧
      (((Time.ofInt64 5 (by decide)).Add Second).After (Time.ofInt64 5 (by decide)) = true
        ↔ Second.ns > 0) ∧
      ((Time.ofInt64 5 (by decide)).Add Second).BeforeOrEqual
        ((Time.ofInt64 9 (by decide)).Add Second) = true :=
  ⟨by decide,
    ((add_respects_order (Time.ofInt64 5 (by decide)) (Time.ofInt64 9 (by decide)) Second).1
      (by decide)).1,
    (add_respects_order (Time.ofInt64 5 (by decide)) (Time.ofInt64 9 (by decide)) Second).2
      (by decide) (by decide) (by decide)⟩

end Ntime
